/-
  Verification of the TOPSIS evaluator (`Topsis.evaluate` in `102203126.py`)
  against its natural-language specification.

  The decision matrix is embedded as a list of rows of real numbers; the
  numpy whole-array operations of the source (elementwise division,
  broadcasting, axis reductions) are embedded index-wise over the row/column
  ranges, which is exactly their elementwise semantics.  Floating-point
  numbers are modelled as real numbers.
-/
import Mathlib

open scoped BigOperators

namespace Topsis

/-- Errors raised by `evaluate` (the two `ValueError`s of the source). -/
inductive TopsisError where
  | DimensionMismatch
  | InvalidImpact
  deriving DecidableEq, Repr

/-- Entry `m[i][j]` of the decision matrix (out-of-range reads default to `0`;
all uses are guarded by the matrix shape). -/
def entry (m : List (List ℝ)) (i j : ℕ) : ℝ := (m.getD i []).getD j 0

/-- `self.features`: the number of criteria columns, `decision_matrix.shape[1]`,
i.e. the common row length of the (rectangular) matrix. -/
def nf (m : List (List ℝ)) : ℕ := (m.headD []).length

/-- `(self.decision_matrix**2).sum(axis=0)` at column `j`: the sum of squares
of column `j` over all rows. -/
noncomputable def colSumSq (m : List (List ℝ)) (j : ℕ) : ℝ :=
  ((List.range m.length).map fun i => entry m i j ^ 2).sum

/-- `norm_matrix[i][j]`: entry of
`self.decision_matrix / np.sqrt((self.decision_matrix**2).sum(axis=0))`. -/
noncomputable def normEntry (m : List (List ℝ)) (i j : ℕ) : ℝ :=
  entry m i j / Real.sqrt (colSumSq m j)

/-- `weighted_matrix[i][j] = norm_matrix[i][j] * weights[j]`. -/
noncomputable def weightedEntry (m : List (List ℝ)) (w : List ℝ) (i j : ℕ) : ℝ :=
  normEntry m i j * w.getD j 0

/-- Column `j` of the weighted matrix, listed over all rows. -/
noncomputable def colVals (m : List (List ℝ)) (w : List ℝ) (j : ℕ) : List ℝ :=
  (List.range m.length).map fun i => weightedEntry m w i j

/-- `np.max` over a nonempty list (the `[]` case is junk, never reached). -/
noncomputable def listMax : List ℝ → ℝ
  | [] => 0
  | [x] => x
  | x :: y :: t => max x (listMax (y :: t))

/-- `np.min` over a nonempty list (the `[]` case is junk, never reached). -/
noncomputable def listMin : List ℝ → ℝ
  | [] => 0
  | [x] => x
  | x :: y :: t => min x (listMin (y :: t))

/-- `ideal_best[j]`: `weighted_matrix.max(axis=0)[j]` when `impacts[j] == "+"`,
else `weighted_matrix.min(axis=0)[j]` (the `np.where` on impacts). -/
noncomputable def idealBest (m : List (List ℝ)) (w : List ℝ) (imp : List String)
    (j : ℕ) : ℝ :=
  if imp.getD j "" = "+" then listMax (colVals m w j) else listMin (colVals m w j)

/-- `ideal_worst[j]`: `weighted_matrix.min(axis=0)[j]` when `impacts[j] == "+"`,
else `weighted_matrix.max(axis=0)[j]`. -/
noncomputable def idealWorst (m : List (List ℝ)) (w : List ℝ) (imp : List String)
    (j : ℕ) : ℝ :=
  if imp.getD j "" = "+" then listMin (colVals m w j) else listMax (colVals m w j)

/-- `distance_best[i] = np.sqrt(((weighted_matrix - ideal_best) ** 2).sum(axis=1))[i]`. -/
noncomputable def distBest (m : List (List ℝ)) (w : List ℝ) (imp : List String)
    (i : ℕ) : ℝ :=
  Real.sqrt (((List.range (nf m)).map fun j =>
    (weightedEntry m w i j - idealBest m w imp j) ^ 2).sum)

/-- `distance_worst[i] = np.sqrt(((weighted_matrix - ideal_worst) ** 2).sum(axis=1))[i]`. -/
noncomputable def distWorst (m : List (List ℝ)) (w : List ℝ) (imp : List String)
    (i : ℕ) : ℝ :=
  Real.sqrt (((List.range (nf m)).map fun j =>
    (weightedEntry m w i j - idealWorst m w imp j) ^ 2).sum)

/-- `scores[i] = distance_worst[i] / (distance_best[i] + distance_worst[i])`. -/
noncomputable def score (m : List (List ℝ)) (w : List ℝ) (imp : List String)
    (i : ℕ) : ℝ :=
  distWorst m w imp i / (distBest m w imp i + distWorst m w imp i)

/-- The score column `scores`, over all rows. -/
noncomputable def scoresList (m : List (List ℝ)) (w : List ℝ)
    (imp : List String) : List ℝ :=
  (List.range m.length).map (score m w imp)

open Classical in
/-- Number of entries of `l` strictly greater than `x`. -/
noncomputable def countGT (l : List ℝ) (x : ℝ) : ℕ :=
  l.countP fun y => decide (x < y)

open Classical in
/-- Number of entries of `l` equal to `x`. -/
noncomputable def countEQ (l : List ℝ) (x : ℝ) : ℕ :=
  l.countP fun y => decide (y = x)

/-- `Series.rank(ascending=False).astype(int)` at value `x` of the series `l`:
pandas' default tie method is `average`, so the rank of `x` is the average of
the ordinal positions of its tie group, `countGT l x + (countEQ l x + 1) / 2`
(rational), and `astype(int)` truncates, which natural division realises. -/
noncomputable def rankOf (l : List ℝ) (x : ℝ) : ℕ :=
  countGT l x + (countEQ l x + 1) / 2

/-- The `Rank` column: the rank of each score of the score column. -/
noncomputable def ranksList (l : List ℝ) : List ℕ := l.map (rankOf l)

/-- `Topsis.evaluate`, with the loaded decision matrix passed explicitly:
validates the lengths of `weights` and `impacts` against the number of
criteria columns, validates that every impact is `"+"` or `"-"`, and returns
the score and rank columns. -/
noncomputable def evaluate (m : List (List ℝ)) (w : List ℝ) (imp : List String) :
    Except TopsisError (List ℝ × List ℕ) :=
  if w.length ≠ nf m ∨ imp.length ≠ nf m then
    .error .DimensionMismatch
  else if ¬ (imp.all fun s => s == "+" || s == "-") then
    .error .InvalidImpact
  else
    .ok (scoresList m w imp, ranksList (scoresList m w imp))

/-- The evaluator object: the loaded table `self.data` (its numeric columns,
named) together with `self.decision_matrix`.  `evaluate` reads the matrix and
appends the `Topsis Score` and `Rank` columns to `self.data`. -/
structure TopsisState where
  data : List (String × List ℝ)
  decision_matrix : List (List ℝ)

/-- `Topsis.evaluate` in object form: same validation and computation as
`evaluate`, returning the updated object (the source mutates `self.data` by
appending the two derived columns and returns it). -/
noncomputable def evaluateState (t : TopsisState) (w : List ℝ)
    (imp : List String) : Except TopsisError TopsisState :=
  if w.length ≠ nf t.decision_matrix ∨ imp.length ≠ nf t.decision_matrix then
    .error .DimensionMismatch
  else if ¬ (imp.all fun s => s == "+" || s == "-") then
    .error .InvalidImpact
  else
    .ok ⟨t.data ++
          [("Topsis Score", scoresList t.decision_matrix w imp),
           ("Rank", (ranksList (scoresList t.decision_matrix w imp)).map
              (Nat.cast : ℕ → ℝ))],
         t.decision_matrix⟩

end Topsis

namespace TopsisSpec

/-!  The reference definition, written from the specification's formulas:
`r[i][j] = matrix[i][j] / sqrt(sum_i matrix[i][j]^2)`,
`v[i][j] = r[i][j] * weights[j]`, ideal best/worst per column chosen by the
impact (max/min over the weighted column), Euclidean distances to the two
ideal points, and `score[i] = d_worst[i] / (d_best[i] + d_worst[i])`.
Sums are `Finset` sums over the row/column index ranges and the per-column
max/min are indexed suprema/infima over the rows. -/

open Topsis (entry nf)

/-- Spec: `r[i][j] = matrix[i][j] / sqrt(sum_i matrix[i][j]^2)`. -/
noncomputable def r (m : List (List ℝ)) (i j : ℕ) : ℝ :=
  entry m i j / Real.sqrt (∑ k ∈ Finset.range m.length, entry m k j ^ 2)

/-- Spec: `v[i][j] = r[i][j] * weights[j]`. -/
noncomputable def v (m : List (List ℝ)) (w : List ℝ) (i j : ℕ) : ℝ :=
  r m i j * w.getD j 0

/-- Spec: `ideal_best[j] = max_i v[i][j]` for a benefit column,
`min_i v[i][j]` for a cost column. -/
noncomputable def idealBest (m : List (List ℝ)) (w : List ℝ) (imp : List String)
    (j : ℕ) : ℝ :=
  if imp.getD j "" = "+" then ⨆ i : Fin m.length, v m w i j
  else ⨅ i : Fin m.length, v m w i j

/-- Spec: `ideal_worst[j] = min_i v[i][j]` for a benefit column,
`max_i v[i][j]` for a cost column. -/
noncomputable def idealWorst (m : List (List ℝ)) (w : List ℝ) (imp : List String)
    (j : ℕ) : ℝ :=
  if imp.getD j "" = "+" then ⨅ i : Fin m.length, v m w i j
  else ⨆ i : Fin m.length, v m w i j

/-- Spec: `d_best[i] = sqrt(sum_j (v[i][j] - ideal_best[j])^2)`. -/
noncomputable def dBest (m : List (List ℝ)) (w : List ℝ) (imp : List String)
    (i : ℕ) : ℝ :=
  Real.sqrt (∑ j ∈ Finset.range (nf m), (v m w i j - idealBest m w imp j) ^ 2)

/-- Spec: `d_worst[i] = sqrt(sum_j (v[i][j] - ideal_worst[j])^2)`. -/
noncomputable def dWorst (m : List (List ℝ)) (w : List ℝ) (imp : List String)
    (i : ℕ) : ℝ :=
  Real.sqrt (∑ j ∈ Finset.range (nf m), (v m w i j - idealWorst m w imp j) ^ 2)

/-- Spec: `score[i] = d_worst[i] / (d_best[i] + d_worst[i])`. -/
noncomputable def specScore (m : List (List ℝ)) (w : List ℝ) (imp : List String)
    (i : ℕ) : ℝ :=
  dWorst m w imp i / (dBest m w imp i + dWorst m w imp i)

end TopsisSpec

namespace Topsis

/-! ### Concrete instances used to exercise the theorems -/

/-- A 2×2 decision matrix (two alternatives, two criteria). -/
noncomputable def exM : List (List ℝ) := [[1, 0], [0, 1]]

/-- A 4×3 decision matrix: three alternatives that are permutations of one
another (so they tie exactly) and one dominated alternative. -/
noncomputable def exM4 : List (List ℝ) :=
  [[1, 0, 0], [0, 1, 0], [0, 0, 1], [0, 0, 0]]

/-- The score shared by the three tied alternatives of `exM4`. -/
noncomputable def exScore : ℝ := 1 / (Real.sqrt 2 + 1)

/-- An evaluator object holding `exM` as its loaded table. -/
noncomputable def exT : TopsisState :=
  ⟨[("C1", [1, 0]), ("C2", [0, 1])], exM⟩

/-- The object `exT` after a successful `evaluate` call: the two derived
columns have been appended to the stored table. -/
noncomputable def exTres : TopsisState :=
  ⟨exT.data ++
     [("Topsis Score", scoresList exT.decision_matrix [1, 1] ["+", "+"]),
      ("Rank", (ranksList (scoresList exT.decision_matrix [1, 1] ["+", "+"])).map
         (Nat.cast : ℕ → ℝ))],
   exT.decision_matrix⟩

/-! ### Bridge lemmas: list reductions versus indexed reductions -/

theorem list_sum_range (f : ℕ → ℝ) (n : ℕ) :
    ((List.range n).map f).sum = ∑ i ∈ Finset.range n, f i := by
  induction n with
  | zero => simp
  | succ n ih => rw [List.range_succ, List.map_append, List.sum_append,
      Finset.sum_range_succ, ih]; simp

theorem listMax_cons_cons (x y : ℝ) (t : List ℝ) :
    listMax (x :: y :: t) = max x (listMax (y :: t)) := rfl

theorem listMin_cons_cons (x y : ℝ) (t : List ℝ) :
    listMin (x :: y :: t) = min x (listMin (y :: t)) := rfl

theorem listMax_mem : ∀ (l : List ℝ), l ≠ [] → listMax l ∈ l
  | [], h => absurd rfl h
  | [x], _ => by simp [listMax]
  | x :: y :: t, _ => by
      rw [listMax_cons_cons]
      rcases le_total x (listMax (y :: t)) with h | h
      · rw [max_eq_right h]
        exact List.mem_cons_of_mem x (listMax_mem (y :: t) (by simp))
      · rw [max_eq_left h]; exact List.mem_cons_self x _

theorem listMin_mem : ∀ (l : List ℝ), l ≠ [] → listMin l ∈ l
  | [], h => absurd rfl h
  | [x], _ => by simp [listMin]
  | x :: y :: t, _ => by
      rw [listMin_cons_cons]
      rcases le_total x (listMin (y :: t)) with h | h
      · rw [min_eq_left h]; exact List.mem_cons_self x _
      · rw [min_eq_right h]
        exact List.mem_cons_of_mem x (listMin_mem (y :: t) (by simp))

theorem le_listMax : ∀ (l : List ℝ) (x : ℝ), x ∈ l → x ≤ listMax l
  | [], x, h => absurd h (List.not_mem_nil x)
  | [y], x, h => by
      simp only [List.mem_singleton] at h
      simp [listMax, h]
  | y :: z :: t, x, h => by
      rw [listMax_cons_cons]
      rcases List.mem_cons.mp h with h | h
      · exact h ▸ le_max_left _ _
      · exact le_trans (le_listMax (z :: t) x h) (le_max_right _ _)

theorem listMin_le : ∀ (l : List ℝ) (x : ℝ), x ∈ l → listMin l ≤ x
  | [], x, h => absurd h (List.not_mem_nil x)
  | [y], x, h => by
      simp only [List.mem_singleton] at h
      simp [listMin, h]
  | y :: z :: t, x, h => by
      rw [listMin_cons_cons]
      rcases List.mem_cons.mp h with h | h
      · exact h ▸ min_le_left _ _
      · exact le_trans (min_le_right _ _) (listMin_le (z :: t) x h)

theorem listMax_range_eq_ciSup (f : ℕ → ℝ) (n : ℕ) (hn : 0 < n) :
    listMax ((List.range n).map f) = ⨆ i : Fin n, f i := by
  have hne : (List.range n).map f ≠ [] := by
    simp [List.range_eq_nil, Nat.pos_iff_ne_zero.mp hn]
  have hnonempty : Nonempty (Fin n) := ⟨⟨0, hn⟩⟩
  apply le_antisymm
  · obtain ⟨i, hi, hfi⟩ := List.mem_map.mp (listMax_mem _ hne)
    rw [← hfi]
    have hbdd : BddAbove (Set.range fun k : Fin n => f k.1) :=
      Set.Finite.bddAbove (Set.finite_range _)
    exact le_ciSup hbdd ⟨i, List.mem_range.mp hi⟩
  · exact ciSup_le fun i => le_listMax _ _
      (List.mem_map.mpr ⟨i.1, List.mem_range.mpr i.isLt, rfl⟩)

theorem listMin_range_eq_ciInf (f : ℕ → ℝ) (n : ℕ) (hn : 0 < n) :
    listMin ((List.range n).map f) = ⨅ i : Fin n, f i := by
  have hne : (List.range n).map f ≠ [] := by
    simp [List.range_eq_nil, Nat.pos_iff_ne_zero.mp hn]
  have hnonempty : Nonempty (Fin n) := ⟨⟨0, hn⟩⟩
  apply le_antisymm
  · exact le_ciInf fun i => listMin_le _ _
      (List.mem_map.mpr ⟨i.1, List.mem_range.mpr i.isLt, rfl⟩)
  · obtain ⟨i, hi, hfi⟩ := List.mem_map.mp (listMin_mem _ hne)
    rw [← hfi]
    have hbdd : BddBelow (Set.range fun k : Fin n => f k.1) :=
      Set.Finite.bddBelow (Set.finite_range _)
    exact ciInf_le hbdd ⟨i, List.mem_range.mp hi⟩

theorem getD_map_range (f : ℕ → ℝ) {i n : ℕ} (h : i < n) :
    (((List.range n).map f)).getD i 0 = f i := by
  rw [List.getD_eq_getElem?_getD, List.getElem?_map, List.getElem?_range h]
  rfl

/-! ### The elementwise pipeline agrees with the specification's formulas -/

theorem colSumSq_eq (m : List (List ℝ)) (j : ℕ) :
    colSumSq m j = ∑ k ∈ Finset.range m.length, entry m k j ^ 2 :=
  list_sum_range _ _

theorem normEntry_eq_r (m : List (List ℝ)) (i j : ℕ) :
    normEntry m i j = TopsisSpec.r m i j := by
  rw [normEntry, TopsisSpec.r, colSumSq_eq]

theorem weightedEntry_eq_v (m : List (List ℝ)) (w : List ℝ) (i j : ℕ) :
    weightedEntry m w i j = TopsisSpec.v m w i j := by
  rw [weightedEntry, TopsisSpec.v, normEntry_eq_r]

theorem idealBest_eq (m : List (List ℝ)) (w : List ℝ) (imp : List String)
    (j : ℕ) (hn : 0 < m.length) :
    idealBest m w imp j = TopsisSpec.idealBest m w imp j := by
  rw [idealBest, TopsisSpec.idealBest, colVals]
  simp only [weightedEntry_eq_v]
  split
  · rw [listMax_range_eq_ciSup _ _ hn]
  · rw [listMin_range_eq_ciInf _ _ hn]

theorem idealWorst_eq (m : List (List ℝ)) (w : List ℝ) (imp : List String)
    (j : ℕ) (hn : 0 < m.length) :
    idealWorst m w imp j = TopsisSpec.idealWorst m w imp j := by
  rw [idealWorst, TopsisSpec.idealWorst, colVals]
  simp only [weightedEntry_eq_v]
  split
  · rw [listMin_range_eq_ciInf _ _ hn]
  · rw [listMax_range_eq_ciSup _ _ hn]

theorem distBest_eq (m : List (List ℝ)) (w : List ℝ) (imp : List String)
    (i : ℕ) (hn : 0 < m.length) :
    distBest m w imp i = TopsisSpec.dBest m w imp i := by
  rw [distBest, TopsisSpec.dBest, list_sum_range]
  congr 1
  refine Finset.sum_congr rfl fun j _ => ?_
  rw [weightedEntry_eq_v, idealBest_eq _ _ _ _ hn]

theorem distWorst_eq (m : List (List ℝ)) (w : List ℝ) (imp : List String)
    (i : ℕ) (hn : 0 < m.length) :
    distWorst m w imp i = TopsisSpec.dWorst m w imp i := by
  rw [distWorst, TopsisSpec.dWorst, list_sum_range]
  congr 1
  refine Finset.sum_congr rfl fun j _ => ?_
  rw [weightedEntry_eq_v, idealWorst_eq _ _ _ _ hn]

theorem score_eq_specScore (m : List (List ℝ)) (w : List ℝ) (imp : List String)
    (i : ℕ) (hn : 0 < m.length) :
    score m w imp i = TopsisSpec.specScore m w imp i := by
  rw [score, TopsisSpec.specScore, distBest_eq _ _ _ _ hn, distWorst_eq _ _ _ _ hn]

theorem scoresList_getD (m : List (List ℝ)) (w : List ℝ) (imp : List String)
    {i : ℕ} (hi : i < m.length) :
    (scoresList m w imp).getD i 0 = score m w imp i := by
  rw [scoresList, getD_map_range _ hi]

/-! ### Helper lemmas about `evaluate`, ranking, and the concrete instances -/

theorem scoresList_length (m : List (List ℝ)) (w : List ℝ) (imp : List String) :
    (scoresList m w imp).length = m.length := by
  simp [scoresList]

theorem ranksList_getD (l : List ℝ) {i : ℕ} (hi : i < l.length) :
    (ranksList l).getD i 0 = rankOf l (l.getD i 0) := by
  rw [ranksList, List.getD_eq_getElem?_getD, List.getElem?_map,
    List.getElem?_eq_getElem hi, List.getD_eq_getElem?_getD,
    List.getElem?_eq_getElem hi]
  rfl

theorem getD_mem (l : List ℝ) {i : ℕ} (hi : i < l.length) : l.getD i 0 ∈ l := by
  rw [List.getD_eq_getElem?_getD, List.getElem?_eq_getElem hi]
  exact List.getElem_mem hi

theorem countGT_eq_zero_of_top (l : List ℝ) (x : ℝ) (hx : ∀ y ∈ l, y ≤ x) :
    countGT l x = 0 := by
  rw [countGT, List.countP_eq_zero]
  intro y hy
  simpa using not_lt.mpr (hx y hy)

theorem one_le_countEQ (l : List ℝ) (x : ℝ) (hx : x ∈ l) : 1 ≤ countEQ l x := by
  rw [countEQ]
  exact Nat.one_le_iff_ne_zero.mpr (Nat.pos_iff_ne_zero.mp
    (List.countP_pos_iff.mpr ⟨x, hx, by simp⟩))

theorem one_le_rankOf (l : List ℝ) (x : ℝ) (hx : x ∈ l) : 1 ≤ rankOf l x := by
  rw [rankOf]
  have h := one_le_countEQ l x hx
  omega

theorem evaluate_ok (m : List (List ℝ)) (w : List ℝ) (imp : List String)
    (hw : w.length = nf m) (himp : imp.length = nf m)
    (hval : ∀ s ∈ imp, s = "+" ∨ s = "-") :
    evaluate m w imp = .ok (scoresList m w imp, ranksList (scoresList m w imp)) := by
  have h2 : (imp.all fun s => s == "+" || s == "-") = true := by
    rw [List.all_eq_true]
    intro s hs
    rcases hval s hs with h | h <;> simp [h]
  rw [evaluate, if_neg (by simp [hw, himp]), if_neg (by simp [h2])]

theorem exM_impacts_valid : ∀ s ∈ (["+", "+"] : List String), s = "+" ∨ s = "-" := by
  intro s hs
  simp only [List.mem_cons, List.mem_singleton, List.not_mem_nil, or_false] at hs
  rcases hs with h | h <;> exact Or.inl h

theorem exM4_impacts_valid : ∀ s ∈ (["+", "+", "+"] : List String), s = "+" ∨ s = "-" := by
  intro s hs
  simp only [List.mem_cons, List.not_mem_nil, or_false] at hs
  rcases hs with h | h | h <;> exact Or.inl h

theorem exM_colSumSq (j : ℕ) (hj : j < 2) : colSumSq exM j = 1 := by
  interval_cases j <;> simp [colSumSq, entry, exM, List.range_succ]

theorem exM_distBest (i : ℕ) (hi : i < 2) : distBest exM [1, 1] ["+", "+"] i = 1 := by
  interval_cases i <;>
    simp [distBest, nf, idealBest, colVals, weightedEntry, normEntry, entry, exM,
      colSumSq, List.range_succ, listMax_cons_cons, listMax, listMin_cons_cons, listMin]

theorem exM_distWorst (i : ℕ) (hi : i < 2) : distWorst exM [1, 1] ["+", "+"] i = 1 := by
  interval_cases i <;>
    simp [distWorst, nf, idealBest, idealWorst, colVals, weightedEntry, normEntry,
      entry, exM, colSumSq, List.range_succ, listMax_cons_cons, listMax,
      listMin_cons_cons, listMin]

theorem exM_score (i : ℕ) (hi : i < 2) : score exM [1, 1] ["+", "+"] i = 1 / 2 := by
  rw [score, exM_distBest i hi, exM_distWorst i hi]
  norm_num

theorem exM_scoresList : scoresList exM [1, 1] ["+", "+"] = [1 / 2, 1 / 2] := by
  rw [scoresList]
  have h0 : List.range exM.length = [0, 1] := rfl
  rw [h0]
  simp [exM_score]

theorem exM_ranksList : ranksList [(1 : ℝ) / 2, 1 / 2] = [1, 1] := by
  simp [ranksList, rankOf, countGT, countEQ, List.countP_cons]

theorem exM_evaluate :
    evaluate exM [1, 1] ["+", "+"] = .ok ([1 / 2, 1 / 2], [1, 1]) := by
  rw [evaluate_ok exM [1, 1] ["+", "+"] rfl rfl exM_impacts_valid,
    exM_scoresList, exM_ranksList]

theorem exScore_pos : 0 < exScore := by
  rw [exScore]
  positivity

set_option maxHeartbeats 4000000 in
theorem exM4_scoresList :
    scoresList exM4 [1, 1, 1] ["+", "+", "+"] = [exScore, exScore, exScore, 0] := by
  rw [exScore]
  simp [scoresList, List.range_succ, score, distBest, distWorst, nf, idealBest,
    idealWorst, colVals, weightedEntry, normEntry, entry, exM4, colSumSq,
    listMax_cons_cons, listMax, listMin_cons_cons, listMin]
  norm_num

theorem exM4_ranksList :
    ranksList [exScore, exScore, exScore, 0] = [2, 2, 2, 4] := by
  have h1 : ¬(exScore < exScore) := lt_irrefl _
  have h2 : ¬(exScore < 0) := not_lt.mpr exScore_pos.le
  have h3 : (0 : ℝ) < exScore := exScore_pos
  have h4 : ¬((0 : ℝ) = exScore) := exScore_pos.ne
  have h5 : ¬(exScore = (0 : ℝ)) := exScore_pos.ne'
  simp [ranksList, rankOf, countGT, countEQ, List.countP_cons, h1, h2, h3, h4, h5]

theorem exM4_evaluate :
    evaluate exM4 [1, 1, 1] ["+", "+", "+"] =
      .ok ([exScore, exScore, exScore, 0], [2, 2, 2, 4]) := by
  rw [evaluate_ok exM4 [1, 1, 1] ["+", "+", "+"] rfl rfl exM4_impacts_valid,
    exM4_scoresList, exM4_ranksList]

/-! ### Uniform scaling of the weight vector -/

theorem getD_map_mul (w : List ℝ) (c : ℝ) (j : ℕ) :
    (w.map fun x => c * x).getD j 0 = c * w.getD j 0 := by
  rw [List.getD_eq_getElem?_getD, List.getD_eq_getElem?_getD, List.getElem?_map]
  cases w[j]? <;> simp

theorem weightedEntry_smul (m : List (List ℝ)) (w : List ℝ) (c : ℝ) (i j : ℕ) :
    weightedEntry m (w.map fun x => c * x) i j = c * weightedEntry m w i j := by
  rw [weightedEntry, weightedEntry, getD_map_mul]
  ring

theorem listMax_smul (c : ℝ) (hc : 0 ≤ c) :
    ∀ l : List ℝ, listMax (l.map fun x => c * x) = c * listMax l
  | [] => by simp [listMax]
  | [x] => by simp [listMax]
  | x :: y :: t => by
      rw [List.map_cons, List.map_cons, listMax_cons_cons, listMax_cons_cons,
        ← List.map_cons, listMax_smul c hc (y :: t), mul_max_of_nonneg _ _ hc]

theorem listMin_smul (c : ℝ) (hc : 0 ≤ c) :
    ∀ l : List ℝ, listMin (l.map fun x => c * x) = c * listMin l
  | [] => by simp [listMin]
  | [x] => by simp [listMin]
  | x :: y :: t => by
      rw [List.map_cons, List.map_cons, listMin_cons_cons, listMin_cons_cons,
        ← List.map_cons, listMin_smul c hc (y :: t), mul_min_of_nonneg _ _ hc]

theorem colVals_smul (m : List (List ℝ)) (w : List ℝ) (c : ℝ) (j : ℕ) :
    colVals m (w.map fun x => c * x) j = (colVals m w j).map fun x => c * x := by
  rw [colVals, colVals, List.map_map]
  exact List.map_congr_left fun i _ => weightedEntry_smul m w c i j

theorem idealBest_smul (m : List (List ℝ)) (w : List ℝ) (imp : List String)
    (c : ℝ) (hc : 0 ≤ c) (j : ℕ) :
    idealBest m (w.map fun x => c * x) imp j = c * idealBest m w imp j := by
  rw [idealBest, idealBest, colVals_smul]
  split
  · rw [listMax_smul c hc]
  · rw [listMin_smul c hc]

theorem idealWorst_smul (m : List (List ℝ)) (w : List ℝ) (imp : List String)
    (c : ℝ) (hc : 0 ≤ c) (j : ℕ) :
    idealWorst m (w.map fun x => c * x) imp j = c * idealWorst m w imp j := by
  rw [idealWorst, idealWorst, colVals_smul]
  split
  · rw [listMin_smul c hc]
  · rw [listMax_smul c hc]

theorem distBest_smul (m : List (List ℝ)) (w : List ℝ) (imp : List String)
    (c : ℝ) (hc : 0 ≤ c) (i : ℕ) :
    distBest m (w.map fun x => c * x) imp i = c * distBest m w imp i := by
  rw [distBest, distBest]
  have hsum : ((List.range (nf m)).map fun j =>
      (weightedEntry m (w.map fun x => c * x) i j -
        idealBest m (w.map fun x => c * x) imp j) ^ 2).sum =
      c ^ 2 * ((List.range (nf m)).map fun j =>
        (weightedEntry m w i j - idealBest m w imp j) ^ 2).sum := by
    rw [list_sum_range, list_sum_range, Finset.mul_sum]
    refine Finset.sum_congr rfl fun j _ => ?_
    rw [weightedEntry_smul, idealBest_smul m w imp c hc j]
    ring
  rw [hsum, Real.sqrt_mul (sq_nonneg c), Real.sqrt_sq hc]

theorem distWorst_smul (m : List (List ℝ)) (w : List ℝ) (imp : List String)
    (c : ℝ) (hc : 0 ≤ c) (i : ℕ) :
    distWorst m (w.map fun x => c * x) imp i = c * distWorst m w imp i := by
  rw [distWorst, distWorst]
  have hsum : ((List.range (nf m)).map fun j =>
      (weightedEntry m (w.map fun x => c * x) i j -
        idealWorst m (w.map fun x => c * x) imp j) ^ 2).sum =
      c ^ 2 * ((List.range (nf m)).map fun j =>
        (weightedEntry m w i j - idealWorst m w imp j) ^ 2).sum := by
    rw [list_sum_range, list_sum_range, Finset.mul_sum]
    refine Finset.sum_congr rfl fun j _ => ?_
    rw [weightedEntry_smul, idealWorst_smul m w imp c hc j]
    ring
  rw [hsum, Real.sqrt_mul (sq_nonneg c), Real.sqrt_sq hc]

theorem score_smul (m : List (List ℝ)) (w : List ℝ) (imp : List String)
    (c : ℝ) (hc : 0 < c) (i : ℕ) :
    score m (w.map fun x => c * x) imp i = score m w imp i := by
  rw [score, score, distBest_smul m w imp c hc.le, distWorst_smul m w imp c hc.le,
    ← mul_add, mul_div_mul_left _ _ hc.ne']

theorem scoresList_smul (m : List (List ℝ)) (w : List ℝ) (imp : List String)
    (c : ℝ) (hc : 0 < c) :
    scoresList m (w.map fun x => c * x) imp = scoresList m w imp := by
  rw [scoresList, scoresList]
  exact List.map_congr_left fun i _ => score_smul m w imp c hc i

theorem distBest_nonneg (m : List (List ℝ)) (w : List ℝ) (imp : List String)
    (i : ℕ) : 0 ≤ distBest m w imp i := by
  rw [distBest]
  exact Real.sqrt_nonneg _

theorem distWorst_nonneg (m : List (List ℝ)) (w : List ℝ) (imp : List String)
    (i : ℕ) : 0 ≤ distWorst m w imp i := by
  rw [distWorst]
  exact Real.sqrt_nonneg _

theorem evaluate_ok_inv (m : List (List ℝ)) (w : List ℝ) (imp : List String)
    (s : List ℝ) (rk : List ℕ) (heval : evaluate m w imp = .ok (s, rk)) :
    s = scoresList m w imp ∧ rk = ranksList (scoresList m w imp) := by
  rw [evaluate] at heval
  split at heval
  · exact absurd heval (by simp)
  · split at heval
    · exact absurd heval (by simp)
    · simp only [Except.ok.injEq, Prod.mk.injEq] at heval
      exact ⟨heval.1.symm, heval.2.symm⟩

/-! ### The claims -/

/-- C1: for every decision matrix with at least one row and at least two
criteria columns, none of whose columns has a zero sum of squares, and
matching-length weights and impacts over `{+,-}`, every score returned by
`evaluate` equals the reference TOPSIS score `TopsisSpec.specScore` built from
the specification's formulas, at every row where the reference distances to
the two ideal points have a nonzero sum. -/
theorem evaluate_matches_reference
    (m : List (List ℝ)) (w : List ℝ) (imp : List String)
    (hns : 0 < m.length) (hnf : 2 ≤ nf m)
    (hrect : ∀ row ∈ m, row.length = nf m)
    (hw : w.length = nf m) (himp : imp.length = nf m)
    (hval : ∀ s ∈ imp, s = "+" ∨ s = "-")
    (hcol : ∀ j, j < nf m → colSumSq m j ≠ 0)
    (s : List ℝ) (rk : List ℕ)
    (heval : evaluate m w imp = .ok (s, rk))
    (i : ℕ) (hi : i < m.length)
    (hden : TopsisSpec.dBest m w imp i + TopsisSpec.dWorst m w imp i ≠ 0) :
    s.getD i 0 = TopsisSpec.specScore m w imp i := by
  have h := (evaluate_ok m w imp hw himp hval).symm.trans heval
  simp only [Except.ok.injEq, Prod.mk.injEq] at h
  rw [← h.1, scoresList_getD m w imp hi, score_eq_specScore m w imp i hns]

/-- C1 witness: on the 2×2 instance `exM` with unit weights and benefit
impacts, the hypotheses hold and row 0's computed score equals the reference
score. -/
theorem evaluate_matches_reference_witness :
    0 < exM.length ∧ 2 ≤ nf exM ∧
    TopsisSpec.dBest exM [1, 1] ["+", "+"] 0 +
      TopsisSpec.dWorst exM [1, 1] ["+", "+"] 0 ≠ 0 ∧
    (scoresList exM [1, 1] ["+", "+"]).getD 0 0 =
      TopsisSpec.specScore exM [1, 1] ["+", "+"] 0 := by
  have hns : 0 < exM.length := by norm_num [exM]
  have hden : TopsisSpec.dBest exM [1, 1] ["+", "+"] 0 +
      TopsisSpec.dWorst exM [1, 1] ["+", "+"] 0 ≠ 0 := by
    rw [← distBest_eq exM [1, 1] ["+", "+"] 0 hns,
      ← distWorst_eq exM [1, 1] ["+", "+"] 0 hns,
      exM_distBest 0 (by norm_num), exM_distWorst 0 (by norm_num)]
    norm_num
  refine ⟨hns, by norm_num [nf, exM], hden, ?_⟩
  refine evaluate_matches_reference exM [1, 1] ["+", "+"] hns (by norm_num [nf, exM])
    ?_ rfl rfl exM_impacts_valid ?_ _ _
    (evaluate_ok exM [1, 1] ["+", "+"] rfl rfl exM_impacts_valid) 0 hns hden
  · intro row hrow
    simp only [exM, List.mem_cons, List.not_mem_nil, or_false] at hrow
    rcases hrow with h | h <;> subst h <;> rfl
  · intro j hj
    rw [exM_colSumSq j hj]
    norm_num

/-- C2: under the validity hypotheses (matching lengths, impacts over `{+,-}`,
no column with zero sum of squares, and a nonzero distance sum at the row),
every score returned by `evaluate` lies in the closed interval `[0, 1]`. -/
theorem evaluate_score_in_unit_interval
    (m : List (List ℝ)) (w : List ℝ) (imp : List String)
    (hw : w.length = nf m) (himp : imp.length = nf m)
    (hval : ∀ s ∈ imp, s = "+" ∨ s = "-")
    (hcol : ∀ j, j < nf m → colSumSq m j ≠ 0)
    (s : List ℝ) (rk : List ℕ)
    (heval : evaluate m w imp = .ok (s, rk))
    (i : ℕ) (hi : i < m.length)
    (hden : distBest m w imp i + distWorst m w imp i ≠ 0) :
    0 ≤ s.getD i 0 ∧ s.getD i 0 ≤ 1 := by
  have h := (evaluate_ok m w imp hw himp hval).symm.trans heval
  simp only [Except.ok.injEq, Prod.mk.injEq] at h
  rw [← h.1, scoresList_getD m w imp hi, score]
  have hb := distBest_nonneg m w imp i
  have hworst := distWorst_nonneg m w imp i
  have hpos : 0 < distBest m w imp i + distWorst m w imp i :=
    lt_of_le_of_ne (add_nonneg hb hworst) (Ne.symm hden)
  constructor
  · exact div_nonneg hworst hpos.le
  · rw [div_le_one hpos]
    exact le_add_of_nonneg_left hb

/-- C2 witness: on `exM` with unit weights the hypotheses hold and row 0's
returned score (1/2) lies in `[0, 1]`. -/
theorem evaluate_score_in_unit_interval_witness :
    distBest exM [1, 1] ["+", "+"] 0 + distWorst exM [1, 1] ["+", "+"] 0 ≠ 0 ∧
    0 ≤ ([1 / 2, 1 / 2] : List ℝ).getD 0 0 ∧
    ([1 / 2, 1 / 2] : List ℝ).getD 0 0 ≤ 1 := by
  have hden : distBest exM [1, 1] ["+", "+"] 0 + distWorst exM [1, 1] ["+", "+"] 0 ≠ 0 := by
    rw [exM_distBest 0 (by norm_num), exM_distWorst 0 (by norm_num)]
    norm_num
  refine ⟨hden, ?_⟩
  refine evaluate_score_in_unit_interval exM [1, 1] ["+", "+"] rfl rfl
    exM_impacts_valid ?_ _ _ exM_evaluate 0 (by norm_num [exM]) hden
  intro j hj
  rw [exM_colSumSq j hj]
  norm_num

/-- C5: scaling every weight by one positive constant `c` leaves the whole
result of `evaluate` — in particular every score — unchanged. -/
theorem evaluate_weight_scaling (m : List (List ℝ)) (w : List ℝ)
    (imp : List String) (c : ℝ) (hc : 0 < c) :
    evaluate m (w.map fun x => c * x) imp = evaluate m w imp := by
  rw [evaluate, evaluate, List.length_map, scoresList_smul m w imp c hc]

/-- C5 witness: doubling the weights on `exM` leaves `evaluate` unchanged. -/
theorem evaluate_weight_scaling_witness :
    0 < (2 : ℝ) ∧
    evaluate exM ([1, 1].map fun x => (2 : ℝ) * x) ["+", "+"] =
      evaluate exM [1, 1] ["+", "+"] :=
  ⟨by norm_num, evaluate_weight_scaling exM [1, 1] ["+", "+"] 2 (by norm_num)⟩

/-- C6: flipping a column's impact from `+` to `-` swaps that column's
contribution to the two ideal points: the ideal-best value becomes the former
ideal-worst value (the column minimum) and vice versa. -/
theorem impact_flip_swaps_ideal (m : List (List ℝ)) (w : List ℝ)
    (imp : List String) (j : ℕ) (hj : j < imp.length)
    (hp : imp.getD j "" = "+") :
    idealBest m w (imp.set j "-") j = idealWorst m w imp j ∧
    idealWorst m w (imp.set j "-") j = idealBest m w imp j := by
  have hset : (imp.set j "-").getD j "" = "-" := by
    rw [List.getD_eq_getElem?_getD, List.getElem?_set_self (by simpa using hj)]
    rfl
  rw [idealBest, idealWorst, idealBest, idealWorst, hset, hp]
  constructor
  · rw [if_neg (by decide), if_pos rfl]
  · rw [if_neg (by decide), if_pos rfl]

/-- C6 witness: on `exM` with impacts `["+", "+"]`, flipping column 0 to `-`
swaps its ideal-best and ideal-worst contributions. -/
theorem impact_flip_swaps_ideal_witness :
    0 < (["+", "+"] : List String).length ∧
    idealBest exM [1, 1] ((["+", "+"] : List String).set 0 "-") 0 =
      idealWorst exM [1, 1] ["+", "+"] 0 ∧
    idealWorst exM [1, 1] ((["+", "+"] : List String).set 0 "-") 0 =
      idealBest exM [1, 1] ["+", "+"] 0 :=
  ⟨by norm_num, impact_flip_swaps_ideal exM [1, 1] ["+", "+"] 0 (by norm_num) rfl⟩

/-- C7: `evaluate` fails with `DimensionMismatch` exactly when the weight or
impact vector's length differs from the number of criteria columns; in
particular three weights against the two-criterion `exM` fail this way. -/
theorem evaluate_dimension_mismatch_iff :
    (∀ (m : List (List ℝ)) (w : List ℝ) (imp : List String),
      evaluate m w imp = .error .DimensionMismatch ↔
        (w.length ≠ nf m ∨ imp.length ≠ nf m)) ∧
    evaluate exM [1, 1, 1] ["+", "+"] = .error .DimensionMismatch := by
  have main : ∀ (m : List (List ℝ)) (w : List ℝ) (imp : List String),
      evaluate m w imp = .error .DimensionMismatch ↔
        (w.length ≠ nf m ∨ imp.length ≠ nf m) := by
    intro m w imp
    rw [evaluate]
    by_cases h : w.length ≠ nf m ∨ imp.length ≠ nf m
    · rw [if_pos h]
      simp [h]
    · rw [if_neg h]
      refine ⟨fun hcontra => ?_, fun hor => absurd hor h⟩
      split at hcontra <;> simp at hcontra
  exact ⟨main, (main exM [1, 1, 1] ["+", "+"]).mpr (Or.inl (by norm_num [nf, exM]))⟩

/-- C8: with weights and impacts of the correct length, `evaluate` fails with
`InvalidImpact` exactly when some impact token is neither `+` nor `-`. -/
theorem evaluate_invalid_impact_iff (m : List (List ℝ)) (w : List ℝ)
    (imp : List String) (hw : w.length = nf m) (himp : imp.length = nf m) :
    evaluate m w imp = .error .InvalidImpact ↔
      ∃ s ∈ imp, s ≠ "+" ∧ s ≠ "-" := by
  rw [evaluate, if_neg (by simp [hw, himp])]
  by_cases h : (imp.all fun s => s == "+" || s == "-") = true
  · rw [if_neg (by simp [h])]
    rw [List.all_eq_true] at h
    refine ⟨fun hcontra => by simp at hcontra, ?_⟩
    rintro ⟨s, hs, h1, h2⟩
    rcases (by simpa using h s hs : s = "+" ∨ s = "-") with hh | hh
    · exact absurd hh h1
    · exact absurd hh h2
  · rw [if_pos h]
    have h2 : ∃ s ∈ imp, ¬(s = "+" ∨ s = "-") := by
      by_contra hall
      push_neg at hall
      apply h
      rw [List.all_eq_true]
      intro x hx
      rcases hall x hx with hh | hh <;> simp [hh]
    obtain ⟨s, hs, hsv⟩ := h2
    push_neg at hsv
    exact ⟨fun _ => ⟨s, hs, hsv.1, hsv.2⟩, fun _ => rfl⟩

/-- C8 witness: on `exM`, impacts `["+", "x"]` of the correct length make
`evaluate` fail with `InvalidImpact`. -/
theorem evaluate_invalid_impact_witness :
    ([1, 1] : List ℝ).length = nf exM ∧
    (["+", "x"] : List String).length = nf exM ∧
    evaluate exM [1, 1] ["+", "x"] = .error .InvalidImpact :=
  ⟨rfl, rfl, (evaluate_invalid_impact_iff exM [1, 1] ["+", "x"] rfl rfl).mpr
    ⟨"x", by simp, by simp, by simp⟩⟩

/-- C10: `evaluate` never inspects the weight values, only their count: any
weight vector of the correct length — zeroes and negatives included — passes
validation and scores are computed. -/
theorem evaluate_ignores_weight_values (m : List (List ℝ)) (w : List ℝ)
    (imp : List String) (hw : w.length = nf m) (himp : imp.length = nf m)
    (hval : ∀ s ∈ imp, s = "+" ∨ s = "-") :
    evaluate m w imp = .ok (scoresList m w imp, ranksList (scoresList m w imp)) :=
  evaluate_ok m w imp hw himp hval

/-- C10 witness: on `exM` the weight vector `[0, -1]` (a zero and a negative
weight) is accepted and `evaluate` returns scores and ranks. -/
theorem evaluate_ignores_weight_values_witness :
    ([0, -1] : List ℝ).length = nf exM ∧
    evaluate exM [0, -1] ["+", "+"] =
      .ok (scoresList exM [0, -1] ["+", "+"],
           ranksList (scoresList exM [0, -1] ["+", "+"])) :=
  ⟨rfl, evaluate_ignores_weight_values exM [0, -1] ["+", "+"] rfl rfl exM_impacts_valid⟩

/-- C3 counterexample: on `exM4` the three rows tied at the strictly positive
top score `exScore` all receive rank 2 — not rank 1 as the claim states.
(The tie group of size 3 has average ordinal rank 2, and truncation to
integer keeps it 2.) -/
theorem evaluate_tie_ranking_cex :
    evaluate exM4 [1, 1, 1] ["+", "+", "+"] =
      .ok ([exScore, exScore, exScore, 0], [2, 2, 2, 4]) ∧
    0 < exScore ∧ ([2, 2, 2, 4] : List ℕ).getD 0 0 ≠ 1 :=
  ⟨exM4_evaluate, exScore_pos, by norm_num⟩

/-- C3 (amended): any two rows with exactly equal scores receive the same
rank, and the rows sharing the identical top score receive rank 1 when at
most two rows share it (a `k`-way top tie receives the truncated average
rank `(k + 1) / 2` instead of 1). -/
theorem evaluate_tie_ranking (m : List (List ℝ)) (w : List ℝ)
    (imp : List String) (s : List ℝ) (rk : List ℕ)
    (heval : evaluate m w imp = .ok (s, rk)) :
    (∀ i1 i2, i1 < s.length → i2 < s.length → s.getD i1 0 = s.getD i2 0 →
      rk.getD i1 0 = rk.getD i2 0) ∧
    (∀ i, i < s.length → (∀ y ∈ s, y ≤ s.getD i 0) →
      countEQ s (s.getD i 0) ≤ 2 → rk.getD i 0 = 1) := by
  obtain ⟨hs, hrk⟩ := evaluate_ok_inv m w imp s rk heval
  have hrk2 : rk = ranksList s := by rw [hrk, ← hs]
  subst hrk2
  constructor
  · intro i1 i2 h1 h2 heq
    rw [ranksList_getD s h1, ranksList_getD s h2, heq]
  · intro i hi htop hce
    rw [ranksList_getD s hi, rankOf, countGT_eq_zero_of_top s _ htop]
    have h1 := one_le_countEQ s (s.getD i 0) (getD_mem s hi)
    omega

/-- C3 witness: on `exM` the two rows tie exactly at score 1/2, and the
theorem yields that both receive the same rank, here rank 1 (a two-way tie). -/
theorem evaluate_tie_ranking_witness :
    evaluate exM [1, 1] ["+", "+"] = .ok ([1 / 2, 1 / 2], [1, 1]) ∧
    ([1, 1] : List ℕ).getD 0 0 = ([1, 1] : List ℕ).getD 1 0 := by
  refine ⟨exM_evaluate, ?_⟩
  exact (evaluate_tie_ranking exM [1, 1] ["+", "+"] [1 / 2, 1 / 2] [1, 1]
    exM_evaluate).1 0 1 (by norm_num) (by norm_num) (by norm_num)

/-- C4 counterexample: on `exM4` the maximum score `exScore` (positive, so
larger than the fourth row's 0) is attained by the first three rows, whose
assigned rank is 2, not 1. -/
theorem evaluate_rank_properties_cex :
    evaluate exM4 [1, 1, 1] ["+", "+", "+"] =
      .ok ([exScore, exScore, exScore, 0], [2, 2, 2, 4]) ∧
    0 ≤ exScore ∧ ¬([2, 2, 2, 4] : List ℕ).getD 0 0 = 1 :=
  ⟨exM4_evaluate, exScore_pos.le, by norm_num⟩

/-- C4 (amended): every assigned rank is a positive integer, and a row
attaining the maximum score receives rank `(k + 1) / 2` (truncated average)
where `k` is the number of rows attaining the maximum — rank 1 exactly when
`k ≤ 2`, rather than for every tie size. -/
theorem evaluate_rank_properties (m : List (List ℝ)) (w : List ℝ)
    (imp : List String) (s : List ℝ) (rk : List ℕ)
    (heval : evaluate m w imp = .ok (s, rk)) :
    (∀ r ∈ rk, 1 ≤ r) ∧
    (∀ i, i < s.length → (∀ y ∈ s, y ≤ s.getD i 0) →
      rk.getD i 0 = (countEQ s (s.getD i 0) + 1) / 2) := by
  obtain ⟨hs, hrk⟩ := evaluate_ok_inv m w imp s rk heval
  have hrk2 : rk = ranksList s := by rw [hrk, ← hs]
  subst hrk2
  constructor
  · intro r hr
    rw [ranksList] at hr
    obtain ⟨x, hx, hxr⟩ := List.mem_map.mp hr
    rw [← hxr]
    exact one_le_rankOf s x hx
  · intro i hi htop
    rw [ranksList_getD s hi, rankOf, countGT_eq_zero_of_top s _ htop]
    omega

/-- C4 witness: on `exM` every rank is at least 1 — in particular the rank
stored at position 0, obtained through the theorem. -/
theorem evaluate_rank_properties_witness :
    evaluate exM [1, 1] ["+", "+"] = .ok ([1 / 2, 1 / 2], [1, 1]) ∧
    1 ≤ ([1, 1] : List ℕ).getD 0 0 := by
  refine ⟨exM_evaluate, ?_⟩
  exact (evaluate_rank_properties exM [1, 1] ["+", "+"] [1 / 2, 1 / 2] [1, 1]
    exM_evaluate).1 1 (by norm_num)

/-- C9 counterexample: a successful `evaluate` call on the object `exT`
leaves a stored table with four columns where the loaded table had two: the
evaluator's stored state is mutated (the source assigns
`self.data["Topsis Score"]` and `self.data["Rank"]`), contrary to the claim
that the stored table is unchanged. -/
theorem evaluateState_mutates_cex :
    (evaluateState exT [1, 1] ["+", "+"]).map (fun t => t.data.length) =
      .ok 4 ∧ exT.data.length = 2 :=
  ⟨rfl, rfl⟩

/-- C9 (amended): the score computation is a pure function of the decision
matrix, weights and impacts, and the only state change of a successful
`evaluate` call is appending the `Topsis Score` and `Rank` columns to the
stored table; the decision matrix and the pre-existing columns are
unchanged. -/
theorem evaluateState_effect (t : TopsisState) (w : List ℝ) (imp : List String)
    (res : TopsisState) (heval : evaluateState t w imp = .ok res) :
    res.decision_matrix = t.decision_matrix ∧
    res.data = t.data ++
      [("Topsis Score", scoresList t.decision_matrix w imp),
       ("Rank", (ranksList (scoresList t.decision_matrix w imp)).map
          (Nat.cast : ℕ → ℝ))] := by
  rw [evaluateState] at heval
  split at heval
  · exact absurd heval (by simp)
  · split at heval
    · exact absurd heval (by simp)
    · simp only [Except.ok.injEq] at heval
      rw [← heval]
      exact ⟨rfl, rfl⟩

/-- C9 witness: the call on `exT` succeeds with result `exTres`, and the
theorem identifies `exTres`'s table as the input table with the two derived
columns appended. -/
theorem evaluateState_effect_witness :
    evaluateState exT [1, 1] ["+", "+"] = .ok exTres ∧
    exTres.data = exT.data ++
      [("Topsis Score", scoresList exT.decision_matrix [1, 1] ["+", "+"]),
       ("Rank", (ranksList (scoresList exT.decision_matrix [1, 1] ["+", "+"])).map
          (Nat.cast : ℕ → ℝ))] := by
  have hE : evaluateState exT [1, 1] ["+", "+"] = .ok exTres := rfl
  exact ⟨hE, (evaluateState_effect exT [1, 1] ["+", "+"] exTres hE).2⟩

end Topsis
